import Mathlib

set_option maxHeartbeats 1000000
set_option linter.unnecessarySeqFocus false

/-!
Shallow embedding of the incremental synchronization engine of the
waka-readme-stats repository (files `sources/manager_download.py` and
`sources/yearly_commit_calculator.py`), together with theorems settling
the specification claims about it.

Conventions used throughout:
* Python dicts are embedded as association lists `List (String × α)` with
  first-match lookup (Python dict keys are unique, insertion order is kept).
* Timestamps are integers counting seconds; `timedelta(days = d)` becomes
  `d * 86400` seconds.
* Machine integers do not overflow in any of the modelled code paths
  (Python ints are unbounded), so `Nat`/`Int` are used directly.
-/

/-! ### JSON values

Model of the JSON dictionaries handled by `manager_download.py`. -/

inductive JVal where
  | str : String → JVal
  | num : Int → JVal
  | bool : Bool → JVal
  | null : JVal
  | arr : List JVal → JVal
  | obj : List (String × JVal) → JVal

/-- First-match lookup in an association list, the embedding of Python
`d[k]` / `k in d` on dicts (keys are unique in a Python dict). -/
def jlookup (kvs : List (String × JVal)) (k : String) : Option JVal :=
  match kvs with
  | [] => none
  | (k2, v) :: rest => if k2 = k then some v else jlookup rest k

/-- Embedding of `DownloadManager.find_pagination_and_data_list`
(`sources/manager_download.py`, lines 260-281).  The Python function takes a
response dict; it returns `(response["nodes"], response["pageInfo"])` when both
keys are present, recurses into the sole value when the dict has exactly one
key whose value is itself a dict, and otherwise returns
`(list(), dict(hasNextPage=False))`. -/
def find_pagination_and_data_list (kvs : List (String × JVal)) : JVal × JVal :=
  if h : (jlookup kvs "nodes").isSome ∧ (jlookup kvs "pageInfo").isSome then
    ((jlookup kvs "nodes").get h.1, (jlookup kvs "pageInfo").get h.2)
  else
    match kvs with
    | [(_, JVal.obj inner)] => find_pagination_and_data_list inner
    | _ => (JVal.arr [], JVal.obj [("hasNextPage", JVal.bool false)])
termination_by sizeOf kvs
decreasing_by all_goals (simp_wf; omega)

/-- Decides whether a response dict is a chain of sole-key dictionary wrappers
ending in a `{nodes, pageInfo}` shape (the success condition of
`find_pagination_and_data_list`). -/
def hasPageShape (kvs : List (String × JVal)) : Bool :=
  ((jlookup kvs "nodes").isSome && (jlookup kvs "pageInfo").isSome) ||
    (match kvs with
     | [(_, JVal.obj inner)] => hasPageShape inner
     | _ => false)
termination_by sizeOf kvs
decreasing_by all_goals (simp_wf; omega)

/-! ### Rate-limit wait policy

Model of the closure `wait_for_rate_limit_reset` and of the surrounding retry
loop `execute_with_rate_limit_handling` in
`DownloadManager.fetch_graphql_paginated` (`sources/manager_download.py`,
lines 296-355). -/

/-- Result of `datetime.fromisoformat(reset_at.replace("Z", "+00:00"))` on the
`extensions.rateLimit.resetAt` string.  `parsed aware secs` is a successfully
parsed timestamp lying `secs` seconds from now; `aware` records whether the
string carried a UTC offset (an ISO-8601 `...Z` or `...+00:00` suffix), in
which case the parsed `datetime` is timezone-aware.  `malformed` stands for a
string `fromisoformat` rejects with `ValueError`. -/
inductive ResetAtField where
  | malformed : ResetAtField
  | parsed : Bool → Int → ResetAtField

/-- A GraphQL rate-limit error as consumed by `wait_for_rate_limit_reset`:
the optional `extensions.rateLimit.resetAt` field and, for the message, the
result of matching the regex `try again in (\d+) seconds` against it. -/
structure RLError where
  resetAt : Option ResetAtField
  tryAgainSecs : Option Nat

/-- Fall-through of `wait_for_rate_limit_reset` once the `resetAt` branch has
been left: the `"try again in N seconds"` message pattern, then the fixed 60
second wait. -/
def rlFallbackWait (e : RLError) : Nat :=
  match e.tryAgainSecs with
  | some n => n
  | none => 60

/-- Embedding of the closure `wait_for_rate_limit_reset`
(`sources/manager_download.py`, lines 296-327); returns the number of seconds
slept.  Faithful detail: the Python code computes
`reset_time - datetime.now()` where `reset_time` is timezone-aware whenever the
`resetAt` string carried a `Z`/offset suffix while `datetime.now()` is naive;
that subtraction raises `TypeError`, which the surrounding
`except (ValueError, TypeError): pass` swallows, so an aware timestamp falls
through to the message pattern and the 60 second fallback exactly like a
malformed one.  Only a suffix-free (naive) timestamp reaches the
`max(wait, 1)` wait-until-reset path. -/
def wait_for_rate_limit_reset (e : RLError) : Nat :=
  match e.resetAt with
  | some (ResetAtField.parsed aware secs) =>
      if aware then rlFallbackWait e else (max secs 1).toNat
  | some ResetAtField.malformed => rlFallbackWait e
  | none => rlFallbackWait e

/-- Total sleep inserted by `execute_with_rate_limit_handling`
(`sources/manager_download.py`, lines 329-355) between the first rate-limited
response and the retry that follows it: the `wait_for_rate_limit_reset` sleep
followed by the backoff sleep `min(wait_time * attempt, 300)` with
`attempt = 1`. -/
def rateLimitRetryDelay (e : RLError) : Nat :=
  let w := wait_for_rate_limit_reset e
  w + min (w * 1) 300

/-! ### Cursor pagination

Model of the pagination loop of `DownloadManager.fetch_graphql_paginated`
(`sources/manager_download.py`, lines 368-422) in the error-free case.  The
underlying single-page responses are taken post-extraction, i.e. already in
the `{nodes, pageInfo}` shape the claim posits; the k-th fetch call made by the
loop consumes the k-th element of the page list.  The loop is modelled
together with the trace of pagination arguments it passes to
`fetch_graphql_query`: `none` for the initial `first: 100` call and
`some c` for a `first: 100, after: "c"` call. -/

structure PageInfo where
  endCursor : String
  hasNextPage : Bool

structure Page where
  nodes : List String
  pageInfo : PageInfo

/-- The `while page_info["hasNextPage"]` loop of `fetch_graphql_paginated`:
`acc` is `page_list`, `calls` the trace of pagination arguments so far, `info`
the current `page_info`, and `rest` the responses the remaining fetch calls
would return.  Returns `none` when the loop wants another page but the
response stream is exhausted (a fetch that never answers). -/
def paginateGo (acc : List String) (calls : List (Option String)) (info : PageInfo) :
    List Page → Option (List String × List (Option String))
  | [] => if info.hasNextPage then none else some (acc, calls)
  | p :: rest2 =>
      if info.hasNextPage then
        paginateGo (acc ++ p.nodes) (calls ++ [some info.endCursor]) p.pageInfo rest2
      else some (acc, calls)

/-- Embedding of `DownloadManager.fetch_graphql_paginated` in the error-free
case: the initial call (pagination argument `none`, i.e. `first: 100`) consumes
the first page, then `paginateGo` runs the `while` loop.  Returns the merged
node list together with the trace of pagination arguments. -/
def fetch_graphql_paginated : List Page → Option (List String × List (Option String))
  | [] => none
  | p :: rest => paginateGo p.nodes [none] p.pageInfo rest

/-- Well-formedness of the page sequence seen from cursor state `info`:
`hasNextPage` is true exactly while further pages remain. -/
def chainFrom (info : PageInfo) : List Page → Bool
  | [] => !info.hasNextPage
  | p :: rest => info.hasNextPage && chainFrom p.pageInfo rest

/-- A response sequence in which every page has `hasNextPage = true` except
the last, which has `hasNextPage = false`. -/
def pagesWellFormed : List Page → Bool
  | [] => false
  | p :: rest => chainFrom p.pageInfo rest

/-- Cursor trace produced by the pagination loop from state `info` over the
remaining pages: each fetch call passes the previous page's `endCursor`. -/
def cursorsOf (info : PageInfo) : List Page → List (Option String)
  | [] => []
  | p :: rest => some info.endCursor :: cursorsOf p.pageInfo rest

/-! ### Yearly buckets (Aggregator)

The nested Python dict `year -> quarter -> language -> {"add": a, "del": d}`
is embedded as its flattened lookup function: a key chain absent at any level
is `none`.  This identifies dicts that differ only in empty intermediate
levels, which Python `==` on the fully-populated dicts built by the code also
never distinguishes. -/

abbrev Bucket := Nat → Nat → String → Option (Nat × Nat)

def emptyBucket : Bucket := fun _ _ _ => none

/-- Embedding of the merge loop appearing twice in
`sources/yearly_commit_calculator.py` (lines 307-317, fetch path, and lines
226-236, cache-load path): for every `(year, quarter, language)` key present
in `src`, create the missing `{"add": 0, "del": 0}` entry in `dst` if needed
and add `src`'s counts into it. -/
def mergeYearly (dst src : Bucket) : Bucket := fun y q l =>
  match src y q l with
  | none => dst y q l
  | some s => some (((dst y q l).getD (0, 0)).1 + s.1, ((dst y q l).getD (0, 0)).2 + s.2)

/-- A one-cell bucket, used to instantiate witnesses. -/
def cellBucket (y q : Nat) (l : String) (a d : Nat) : Bucket :=
  fun y2 q2 l2 => if y2 = y ∧ q2 = q ∧ l2 = l then some (a, d) else none

/-! ### Per-process GraphQL query cache (`DownloadManager.get_remote_graphql`)

`_REMOTE_RESOURCES_CACHE` restricted to dynamic-query keys is the `cache`
association list; the network is an oracle indexed by how many fetches have
been issued so far, so that a repeated fetch may in principle answer
differently.  The MD5 digest of `dumps(kwargs, sort_keys=True)` is modelled by
the sorted serialization itself: the claims concern calls with identical
parameters, for which any deterministic function of that serialization
behaves identically. -/

/-- Insertion into a key-sorted association list (helper for
`dumps(kwargs, sort_keys=True)`). -/
def insertSorted (p : String × String) : List (String × String) → List (String × String)
  | [] => [p]
  | q :: rest => if p.1 ≤ q.1 then p :: q :: rest else q :: insertSorted p rest

/-- Keyword arguments sorted by key, as `dumps(kwargs, sort_keys=True)`
serializes them. -/
def kwargsSorted : List (String × String) → List (String × String)
  | [] => []
  | p :: rest => insertSorted p (kwargsSorted rest)

/-- Serialization of the sorted keyword arguments (stand-in for
`md5(dumps(kwargs, sort_keys=True)).digest()`). -/
def serializeKwargs (kwargs : List (String × String)) : String :=
  (kwargsSorted kwargs).foldl (fun s p => s ++ p.1 ++ "=" ++ p.2 ++ ";") ""

/-- The cache key `f"(query)_(digest)"` built by `get_remote_graphql`
(`sources/manager_download.py`, line 436). -/
def cacheKey (query : String) (kwargs : List (String × String)) : String :=
  query ++ "_" ++ serializeKwargs kwargs

/-- The `DownloadManager` state visible to `get_remote_graphql`: the dynamic
part of `_REMOTE_RESOURCES_CACHE` plus the number of network fetches issued. -/
structure DMState where
  cache : List (String × JVal)
  fetchCount : Nat

/-- Embedding of `DownloadManager.get_remote_graphql`
(`sources/manager_download.py`, lines 424-445): on a cache miss, run the
underlying (paginated or simple) fetch — modelled by the oracle applied to the
current fetch count — and store the result under the key; on a hit, return the
stored result without fetching. -/
def get_remote_graphql (oracle : Nat → JVal) (st : DMState) (query : String)
    (kwargs : List (String × String)) : JVal × DMState :=
  let key := cacheKey query kwargs
  match jlookup st.cache key with
  | some res => (res, st)
  | none =>
      let res := oracle st.fetchCount
      (res, { cache := st.cache ++ [(key, res)], fetchCount := st.fetchCount + 1 })

/-! ### The sync orchestrator (`sources/yearly_commit_calculator.py`)

The run is modelled as a pure function from the environment (network outcomes,
clock, configuration, pre-run filesystem) to the event trace it performs and
the aggregate it returns, `none` standing for an exception propagating out of
`calculate_commit_data`.  Concurrency: repository tasks are modelled with the
serialized schedule (tasks started in list order, one at a time); since
`gather` is called without `return_exceptions`, the first task exception
re-raises out of `fetch_and_process_repos` under every schedule, which is the
only scheduling-dependent fact the claims rely on. -/

/-- Generic first-match association-list lookup (Python `d.get(k)` on a
dict with unique keys). -/
def alookup {α : Type} (kvs : List (String × α)) (k : String) : Option α :=
  match kvs with
  | [] => none
  | (k2, v) :: rest => if k2 = k then some v else alookup rest k

/-- Generic association-list update (Python `d[k] = v`): replaces in place,
else appends, preserving insertion order. -/
def aset {α : Type} (kvs : List (String × α)) (k : String) (v : α) : List (String × α) :=
  match kvs with
  | [] => [(k, v)]
  | (k2, v2) :: rest => if k2 = k then (k2, v) :: rest else (k2, v2) :: aset rest k v

/-- Untyped nested string dict, the shape of the commit-date index
(`date_data`) and of the `date_data` fragment of a cache record.  Kept
untyped on purpose: the cache-load loop in `load_cached_repo_data` writes
whatever values it iterates over, regardless of their nesting depth. -/
inductive NDict where
  | leaf : String → NDict
  | node : List (String × NDict) → NDict

abbrev Obj := List (String × NDict)

structure Commit where
  oid : String
  committedDate : String
  additions : Nat
  deletions : Nat
deriving DecidableEq

structure Branch where
  name : String
  commits : List Commit
deriving DecidableEq

structure Repo where
  name : String
  owner : String
  isPrivate : Bool
  primaryLanguage : Option String
deriving DecidableEq

/-- Outcome of the GraphQL fetches for one repository, keyed by repository
name: `fatal` when some query for it exhausts its retry budget or hits an
unrecognized status so that `DownloadManager` raises; `ok branches` when the
branch-list query and every per-branch commit query succeed, with each
branch's commit list attached. -/
inductive FetchResult where
  | fatal : FetchResult
  | ok : List Branch → FetchResult
deriving DecidableEq

abbrev Network := String → FetchResult

/-- A cache-index timestamp as read back from `index.json`: `ok t` when
`datetime.fromisoformat` parses it, `bad` when parsing raises. -/
inductive Stamp where
  | bad : Stamp
  | ok : Int → Stamp
deriving DecidableEq

/-- A per-repository cache record, the content of
`.repo_cache/<repo>.json`: the repo's yearly fragment, the saved
`date_data` dict `{repo_name: branch_map}`, the write timestamp and the
primary language. -/
structure CacheRecord where
  yearly : Bucket
  dateFragment : Obj
  cachedAt : Int
  language : Option String

/-- The pre-run durable state: parsed `index.json`, the `processed_repos`
list of `checkpoint.json`, and the per-repository record files. -/
structure FS where
  cacheIndex : List (String × Stamp)
  checkpointProcessed : List String
  records : String → Option CacheRecord

/-- Observable filesystem/network/log events of one run. -/
inductive Ev where
  | readCacheIndexFile : Ev
  | readCheckpointFile : Ev
  | readCacheRecord : String → Ev
  | fetchBranchList : String → Ev
  | warnNoBranches : String → Ev
  | writeCacheRecord : String → Ev
  | writeCacheIndexFile : Ev
  | writeCheckpointFile : List String → Ev
  | clearCheckpointFile : Ev
deriving DecidableEq

/-- In-memory state threaded through the fetch phase: the two aggregates,
the in-memory cache index and the checkpoint list. -/
structure SyncState where
  yearly : Bucket
  dateData : Obj
  cacheIndex : List (String × Stamp)
  processed : List String

/-- Year and month extracted from the leading `YYYY-MM-DD` of an ISO-8601
`committedDate`, the embedding of `search(r"\d+-\d+-\d+", ...)` followed by
`datetime.fromisoformat(date).year` / `.month`. -/
def dateYearMonth (s : String) : Nat × Nat :=
  match s.splitOn "-" with
  | y :: m :: _ => (y.toNat?.getD 0, m.toNat?.getD 0)
  | _ => (0, 0)

def commitYear (c : Commit) : Nat := (dateYearMonth c.committedDate).1

/-- The quarter computation `(month - 1) // 3 + 1`. -/
def commitQuarter (c : Commit) : Nat := ((dateYearMonth c.committedDate).2 - 1) / 3 + 1

/-- One `+=` step on a bucket cell, creating the missing `{"add": 0,
"del": 0}` entry first. -/
def bucketAdd (b : Bucket) (y q : Nat) (l : String) (a d : Nat) : Bucket :=
  fun y2 q2 l2 =>
    if y2 = y ∧ q2 = q ∧ l2 = l then
      some (((b y q l).getD (0, 0)).1 + a, ((b y q l).getD (0, 0)).2 + d)
    else b y2 q2 l2

/-- The repo-local `repo_yearly_data` built by
`update_data_with_commit_stats_and_cache` (lines 292-301): empty when the
repository has no primary language, else every commit's additions/deletions
added under `(year, quarter, language)`. -/
def repoYearly (lang? : Option String) (branches : List Branch) : Bucket :=
  match lang? with
  | none => emptyBucket
  | some lang =>
      branches.foldl
        (fun b br =>
          br.commits.foldl
            (fun b2 c => bucketAdd b2 (commitYear c) (commitQuarter c) lang c.additions c.deletions)
            b)
        emptyBucket

/-- The repo-local `repo_date_data[repo_name]` built by
`update_data_with_commit_stats_and_cache` (lines 279-290): per branch, the
dict of `oid -> committedDate`, initialized to `{}` (or the entry already
present for that branch name) before the commits are inserted. -/
def repoBranchDict (branches : List Branch) : Obj :=
  branches.foldl
    (fun bm br =>
      let start := match alookup bm br.name with
        | some (NDict.node es) => es
        | _ => []
      aset bm br.name
        (NDict.node (br.commits.foldl (fun m c => aset m c.oid (NDict.leaf c.committedDate)) start)))
    []

/-- The dict stored under a repo's key of `date_data`, read back as an
association list (`{}` when absent or not a dict). -/
def objUnder (dateData : Obj) (name : String) : Obj :=
  match alookup dateData name with
  | some (NDict.node es) => es
  | _ => []

/-- Embedding of `update_data_with_commit_stats_and_cache`
(`sources/yearly_commit_calculator.py`, lines 245-331).  Returns the event
trace and, unless a fetch raised fatally (`none`), the updated
`(yearly_data, date_data, cache_index)`.  On an empty branch list the function
warns and returns with no write at all; otherwise it merges the repo-local
fragments into the aggregates, then writes the cache record followed by the
cache index (`save_repo_to_cache`, lines 85-92, which also sets
`index[repo_name] = now`). -/
def updateDataWithCommitStatsAndCache (net : Network) (now : Int) (repo : Repo)
    (yearly : Bucket) (dateData : Obj) (cacheIndex : List (String × Stamp)) :
    List Ev × Option (Bucket × Obj × List (String × Stamp)) :=
  match net repo.name with
  | FetchResult.fatal => ([Ev.fetchBranchList repo.name], none)
  | FetchResult.ok [] =>
      ([Ev.fetchBranchList repo.name, Ev.warnNoBranches repo.name],
       some (yearly, dateData, cacheIndex))
  | FetchResult.ok (b :: bs) =>
      let branches := b :: bs
      let ry := repoYearly repo.primaryLanguage branches
      let rbd := repoBranchDict branches
      let yearly2 := mergeYearly yearly ry
      let dateData2 :=
        aset dateData repo.name
          (NDict.node (rbd.foldl (fun es p => aset es p.1 p.2) (objUnder dateData repo.name)))
      let cacheIndex2 := aset cacheIndex repo.name (Stamp.ok now)
      ([Ev.fetchBranchList repo.name, Ev.writeCacheRecord repo.name, Ev.writeCacheIndexFile],
       some (yearly2, dateData2, cacheIndex2))

/-- Embedding of the task body `process_one`
(`sources/yearly_commit_calculator.py`, lines 196-206): skip ignored repos;
run the fetch-and-update; when it returns normally and the repo is not yet in
`processed_repos`, append it and persist the checkpoint.  A fatal fetch
(`none`) propagates before the checkpoint lines are reached. -/
def processOne (net : Network) (now : Int) (ignored : List String) (repo : Repo)
    (st : SyncState) : List Ev × Option SyncState :=
  if repo.name ∈ ignored then ([], some st)
  else
    match updateDataWithCommitStatsAndCache net now repo st.yearly st.dateData st.cacheIndex with
    | (tr, none) => (tr, none)
    | (tr, some (y2, dd2, ci2)) =>
        if repo.name ∈ st.processed then
          (tr, some { yearly := y2, dateData := dd2, cacheIndex := ci2, processed := st.processed })
        else
          let processed2 := st.processed ++ [repo.name]
          (tr ++ [Ev.writeCheckpointFile processed2],
           some { yearly := y2, dateData := dd2, cacheIndex := ci2, processed := processed2 })

/-- Embedding of `fetch_and_process_repos`
(`sources/yearly_commit_calculator.py`, lines 182-211) under the serialized
schedule: tasks run in list order; the first exception re-raises out of
`gather` (`none`), dropping the remaining tasks. -/
def fetchAndProcessRepos (net : Network) (now : Int) (ignored : List String) :
    List Repo → SyncState → List Ev × Option SyncState
  | [], st => ([], some st)
  | r :: rest, st =>
      match processOne net now ignored r st with
      | (tr, none) => (tr, none)
      | (tr, some st2) =>
          match fetchAndProcessRepos net now ignored rest st2 with
          | (tr2, res) => (tr ++ tr2, res)

/-- Embedding of `load_cached_repo_data`
(`sources/yearly_commit_calculator.py`, lines 214-242): a missing or
unreadable record returns with the aggregates untouched; otherwise the record's
yearly fragment is merged and the items of its saved `date_data` dict are
written under `date_data[repo_name]`.  Source fidelity note: the saved dict is
`{repo_name: branch_map}` (line 326), so this loop stores the branch map one
level too deep, under the key `repo_name`; the model reproduces that verbatim. -/
def loadCachedRepoData (records : String → Option CacheRecord) (repo : Repo)
    (yearly : Bucket) (dateData : Obj) : List Ev × Bucket × Obj :=
  match records repo.name with
  | none => ([Ev.readCacheRecord repo.name], yearly, dateData)
  | some rec =>
      let yearly2 := mergeYearly yearly rec.yearly
      let dateData2 :=
        aset dateData repo.name
          (NDict.node (rec.dateFragment.foldl (fun es p => aset es p.1 p.2)
            (objUnder dateData repo.name)))
      ([Ev.readCacheRecord repo.name], yearly2, dateData2)

/-- The cache-load loop of `calculate_commit_data` (lines 161-162). -/
def loadCachedRepos (records : String → Option CacheRecord) :
    List Repo → Bucket → Obj → List Ev × Bucket × Obj
  | [], yearly, dateData => ([], yearly, dateData)
  | r :: rest, yearly, dateData =>
      match loadCachedRepoData records r yearly dateData with
      | (tr, y2, d2) =>
          match loadCachedRepos records rest y2 d2 with
          | (tr2, y3, d3) => (tr ++ tr2, y3, d3)

inductive RepoClass where
  | fetch : RepoClass
  | reuse : RepoClass
deriving DecidableEq

/-- The fetch/reuse decision for one repository name, extracted from the
classification loop of `calculate_commit_data`
(`sources/yearly_commit_calculator.py`, lines 124-150): a repo listed in a
non-empty `processed_repos` is reused outright; else a missing or unparsable
index timestamp means fetch, a timestamp strictly older than the cutoff means
fetch, and anything else means reuse. -/
def classifyRepo (processed : List String) (index : List (String × Stamp))
    (cutoff : Int) (name : String) : RepoClass :=
  if processed ≠ [] ∧ name ∈ processed then RepoClass.reuse
  else
    match alookup index name with
    | none => RepoClass.fetch
    | some Stamp.bad => RepoClass.fetch
    | some (Stamp.ok t) => if t < cutoff then RepoClass.fetch else RepoClass.reuse

/-- The classification loop itself: ignored repos land in neither list; the
others go to `repos_to_fetch` or `repos_to_load` in input order. -/
def partitionRepos (ignored processed : List String) (index : List (String × Stamp))
    (cutoff : Int) : List Repo → List Repo × List Repo
  | [] => ([], [])
  | r :: rest =>
      let (f, l) := partitionRepos ignored processed index cutoff rest
      if r.name ∈ ignored then (f, l)
      else
        match classifyRepo processed index cutoff r.name with
        | RepoClass.fetch => (r :: f, l)
        | RepoClass.reuse => (f, r :: l)

structure RunConfig where
  useCache : Bool
  ttlDays : Nat
  ignored : List String

/-- Embedding of `calculate_commit_data`
(`sources/yearly_commit_calculator.py`, lines 95-179).  With caching on:
read index and checkpoint, classify, fetch the fetch set (a fatal fetch
re-raises: `none`, and neither the cache loads nor `clear_checkpoint` run),
load the reuse set from the record files, clear the checkpoint, and return the
aggregates.  With caching off: fetch everything with a fresh empty in-memory
index and checkpoint list, reading no durable state and never clearing the
checkpoint. -/
def calculate_commit_data (net : Network) (now : Int) (cfg : RunConfig) (fs : FS)
    (repos : List Repo) : List Ev × Option (Bucket × Obj) :=
  if cfg.useCache then
    let cutoff : Int := now - cfg.ttlDays * 86400
    let (toFetch, toLoad) :=
      partitionRepos cfg.ignored fs.checkpointProcessed fs.cacheIndex cutoff repos
    let st0 : SyncState :=
      { yearly := emptyBucket, dateData := [], cacheIndex := fs.cacheIndex,
        processed := fs.checkpointProcessed }
    match fetchAndProcessRepos net now cfg.ignored toFetch st0 with
    | (tr, none) => (Ev.readCacheIndexFile :: Ev.readCheckpointFile :: tr, none)
    | (tr, some st1) =>
        match loadCachedRepos fs.records toLoad st1.yearly st1.dateData with
        | (tr2, y2, d2) =>
            (Ev.readCacheIndexFile :: Ev.readCheckpointFile ::
              (tr ++ tr2 ++ [Ev.clearCheckpointFile]), some (y2, d2))
  else
    let st0 : SyncState :=
      { yearly := emptyBucket, dateData := [], cacheIndex := [], processed := [] }
    match fetchAndProcessRepos net now cfg.ignored repos st0 with
    | (tr, none) => (tr, none)
    | (tr, some st1) => (tr, some (st1.yearly, st1.dateData))

/-! ### Concrete sample data for witnesses and counterexamples -/

def sampleCommit : Commit :=
  { oid := "c1", committedDate := "2023-04-15T10:00:00Z", additions := 150, deletions := 60 }

def sampleBranch : Branch := { name := "main", commits := [sampleCommit] }

def sampleRepoA : Repo :=
  { name := "alpha", owner := "u", isPrivate := false, primaryLanguage := some "Python" }

def sampleRepoB : Repo :=
  { name := "beta", owner := "u", isPrivate := false, primaryLanguage := some "Python" }

/-- Network in which `beta` fails fatally and every other repo has one branch
with one commit. -/
def sampleNet : Network :=
  fun n => if n = "beta" then FetchResult.fatal else FetchResult.ok [sampleBranch]

/-- Network in which every repository has an empty branch list. -/
def emptyBranchNet : Network := fun _ => FetchResult.ok []

/-- Network in which every repository succeeds with one branch. -/
def okNet : Network := fun _ => FetchResult.ok [sampleBranch]

def emptyFS : FS := { cacheIndex := [], checkpointProcessed := [], records := fun _ => none }

def cacheCfg : RunConfig := { useCache := true, ttlDays := 7, ignored := [] }

def noCacheCfg : RunConfig := { useCache := false, ttlDays := 7, ignored := [] }

def startState : SyncState :=
  { yearly := emptyBucket, dateData := [], cacheIndex := [], processed := [] }

def samplePage1 : Page :=
  { nodes := ["n1", "n2"], pageInfo := { endCursor := "cur1", hasNextPage := true } }

def samplePage2 : Page :=
  { nodes := ["n3"], pageInfo := { endCursor := "cur2", hasNextPage := false } }

/-! ## Theorems -/

/-! ### Helper lemmas -/

theorem jlookup_append_of_none {a : List (String × JVal)} {k : String}
    (b : List (String × JVal)) (h : jlookup a k = none) :
    jlookup (a ++ b) k = jlookup b k := by
  induction a with
  | nil => rfl
  | cons p rest ih =>
      obtain ⟨k2, v⟩ := p
      simp only [List.cons_append, jlookup] at h ⊢
      by_cases hk : k2 = k
      · simp [hk] at h
      · simp only [if_neg hk] at h ⊢
        exact ih h

theorem jlookup_singleton_self (k : String) (v : JVal) :
    jlookup [(k, v)] k = some v := by
  simp [jlookup]

/-! ### C9: per-process caching of dynamic GraphQL queries -/

/-- C9: for every dynamic query identifier and parameter set,
`get_remote_graphql` performs the underlying network fetch at most once per
process: a second call with the same query and identical parameters (the same
cache key, built from the query name and the sorted-parameter digest) returns
the previously cached result and leaves the `DownloadManager` state — cache
contents and fetch count — unchanged, so repeated calls with equal arguments
yield equal results within one run even against a time-varying network. -/
theorem get_remote_graphql_at_most_once (oracle : Nat → JVal) (st : DMState)
    (query : String) (kwargs : List (String × String)) :
    (get_remote_graphql oracle (get_remote_graphql oracle st query kwargs).2 query kwargs).1
      = (get_remote_graphql oracle st query kwargs).1 ∧
    (get_remote_graphql oracle (get_remote_graphql oracle st query kwargs).2 query kwargs).2
      = (get_remote_graphql oracle st query kwargs).2 := by
  unfold get_remote_graphql
  cases h : jlookup st.cache (cacheKey query kwargs) with
  | some res => simp [h]
  | none =>
      have h2 : jlookup (st.cache ++ [(cacheKey query kwargs, oracle st.fetchCount)])
          (cacheKey query kwargs) = some (oracle st.fetchCount) := by
        rw [jlookup_append_of_none _ h, jlookup_singleton_self]
      simp [h, h2]

/-! ### C2: rate-limit reset wait -/

/-- C2: divergence between the code and the claimed wait behavior, evaluated
at the claim's own input (a rate-limit error whose
`extensions.rateLimit.resetAt` is an ISO-8601 timestamp 30 seconds in the
future and whose message has no `"try again in N seconds"` pattern).  A
standard ISO-8601 `...Z`/`...+00:00` timestamp parses to a timezone-aware
datetime (first conjunct, `aware = true`): the subtraction against the naive
`datetime.now()` raises a silently-caught `TypeError`, so the code waits the
60-second fallback instead of ~30 s, and the retry loop then sleeps another
`min(60 * 1, 300)` seconds of backoff — 120 s before the retry, not the
claimed `< 35` s.  Even for a timestamp without a UTC suffix (naive, so the
subtraction succeeds — remaining conjuncts) the wait until reset is 30 s but
the loop adds 30 s of backoff, for a total of 60 s before the retry. -/
theorem rate_limit_reset_wait_divergence :
    wait_for_rate_limit_reset
      { resetAt := some (ResetAtField.parsed true 30), tryAgainSecs := none } = 60 ∧
    rateLimitRetryDelay
      { resetAt := some (ResetAtField.parsed true 30), tryAgainSecs := none } = 120 ∧
    ¬(120 < 35) ∧
    wait_for_rate_limit_reset
      { resetAt := some (ResetAtField.parsed false 30), tryAgainSecs := none } = 30 ∧
    rateLimitRetryDelay
      { resetAt := some (ResetAtField.parsed false 30), tryAgainSecs := none } = 60 ∧
    ¬(60 < 35) := by
  decide

/-! ### C6: cache TTL boundary -/

/-- C6: during fetch/reuse classification, a repository not covered by the
checkpoint is classified `fetch` when its cache-index timestamp is
`now - TTL - 1s` (older than the cutoff), `reuse` when it is `now - TTL + 1s`
(younger than the cutoff), and `fetch` when the timestamp is absent or
unparsable.  The cutoff is `now - ttlDays` days, in seconds. -/
theorem cache_ttl_boundary (processed : List String) (now : Int) (ttlDays : Nat)
    (name : String) (idxStale idxFresh idxAbsent idxBad : List (String × Stamp))
    (hnp : name ∉ processed)
    (hs : alookup idxStale name = some (Stamp.ok (now - ttlDays * 86400 - 1)))
    (hf : alookup idxFresh name = some (Stamp.ok (now - ttlDays * 86400 + 1)))
    (ha : alookup idxAbsent name = none)
    (hb : alookup idxBad name = some Stamp.bad) :
    classifyRepo processed idxStale (now - ttlDays * 86400) name = RepoClass.fetch ∧
    classifyRepo processed idxFresh (now - ttlDays * 86400) name = RepoClass.reuse ∧
    classifyRepo processed idxAbsent (now - ttlDays * 86400) name = RepoClass.fetch ∧
    classifyRepo processed idxBad (now - ttlDays * 86400) name = RepoClass.fetch := by
  have hcond : ¬(processed ≠ [] ∧ name ∈ processed) := fun h => hnp h.2
  refine ⟨?_, ?_, ?_, ?_⟩ <;> unfold classifyRepo <;> rw [if_neg hcond]
  · rw [hs]
    have : now - ttlDays * 86400 - 1 < now - ttlDays * 86400 := by omega
    simp [this]
  · rw [hf]
    have : ¬(now - ttlDays * 86400 + 1 < now - ttlDays * 86400) := by omega
    simp [this]
  · rw [ha]
  · rw [hb]

/-- C6 witness: the boundary classification evaluated at `now = 0`,
`ttlDays = 7` and one-entry cache indexes for repository `alpha`. -/
theorem cache_ttl_boundary_witness :
    classifyRepo [] [("alpha", Stamp.ok (0 - (7 : Nat) * 86400 - 1))] (0 - (7 : Nat) * 86400)
        "alpha" = RepoClass.fetch ∧
    classifyRepo [] [("alpha", Stamp.ok (0 - (7 : Nat) * 86400 + 1))] (0 - (7 : Nat) * 86400)
        "alpha" = RepoClass.reuse ∧
    classifyRepo [] [] (0 - (7 : Nat) * 86400) "alpha" = RepoClass.fetch ∧
    classifyRepo [] [("alpha", Stamp.bad)] (0 - (7 : Nat) * 86400) "alpha" = RepoClass.fetch :=
  cache_ttl_boundary [] 0 7 "alpha"
    [("alpha", Stamp.ok (0 - (7 : Nat) * 86400 - 1))]
    [("alpha", Stamp.ok (0 - (7 : Nat) * 86400 + 1))]
    [] [("alpha", Stamp.bad)]
    (by decide) (by decide) (by decide) (by decide) (by decide)

/-! ### C3: checkpoint overrides cache-index staleness -/

theorem mem_partition_reuse (ignored processed : List String)
    (index : List (String × Stamp)) (cutoff : Int) (repos : List Repo) (r : Repo)
    (hr : r ∈ repos) (hni : r.name ∉ ignored)
    (hc : classifyRepo processed index cutoff r.name = RepoClass.reuse) :
    r ∈ (partitionRepos ignored processed index cutoff repos).2 := by
  induction repos with
  | nil => cases hr
  | cons a rest ih =>
      rcases hfl : partitionRepos ignored processed index cutoff rest with ⟨f, l⟩
      have hstep : partitionRepos ignored processed index cutoff (a :: rest)
          = if a.name ∈ ignored then (f, l)
            else match classifyRepo processed index cutoff a.name with
                 | RepoClass.fetch => (a :: f, l)
                 | RepoClass.reuse => (f, a :: l) := by
        unfold partitionRepos
        rw [hfl]
      rcases List.mem_cons.mp hr with rfl | hmem
      · rw [hstep, if_neg hni, hc]
        exact List.mem_cons_self _ _
      · have hrec := ih hmem
        rw [hfl] at hrec
        rw [hstep]
        by_cases hig : a.name ∈ ignored
        · rw [if_pos hig]
          exact hrec
        · rw [if_neg hig]
          cases hcl : classifyRepo processed index cutoff a.name
          · exact hrec
          · exact List.mem_cons_of_mem _ hrec

/-- C3: a repository whose name appears in the checkpoint's `processedRepos`
is classified `reuse` — it lands in the `repos_to_load` list of the
classification loop — for every cache index, including one with no entry for
it at all or an entry older than the TTL cutoff. -/
theorem checkpoint_overrides_cache_index (processed : List String)
    (index : List (String × Stamp)) (cutoff : Int) (ignored : List String)
    (repos : List Repo) (r : Repo)
    (hmem : r.name ∈ processed) (hr : r ∈ repos) (hni : r.name ∉ ignored) :
    classifyRepo processed index cutoff r.name = RepoClass.reuse ∧
    r ∈ (partitionRepos ignored processed index cutoff repos).2 := by
  have hne : processed ≠ [] := by
    rintro rfl
    cases hmem
  have hcl : classifyRepo processed index cutoff r.name = RepoClass.reuse := by
    unfold classifyRepo
    rw [if_pos ⟨hne, hmem⟩]
  exact ⟨hcl, mem_partition_reuse ignored processed index cutoff repos r hr hni hcl⟩

/-- C3 witness: repository `alpha` listed in a checkpoint from a prior
interrupted run is classified `reuse` although the cache index is empty
(has no entry for it at all). -/
theorem checkpoint_overrides_cache_index_witness :
    classifyRepo ["alpha"] [] 0 sampleRepoA.name = RepoClass.reuse ∧
    sampleRepoA ∈ (partitionRepos [] ["alpha"] [] 0 [sampleRepoA]).2 :=
  checkpoint_overrides_cache_index ["alpha"] [] 0 [] [sampleRepoA] sampleRepoA
    (by decide) (List.mem_singleton.mpr rfl) (by decide)

/-! ### C5: malformed responses fail soft -/

/-- C5: for every response dict that is not a chain of sole-key dictionary
wrappers ending in a `{nodes, pageInfo}` shape, page extraction — which
unwraps sole-key dictionaries recursively — returns the empty list together
with `{hasNextPage: false}` once the structure is exhausted.  (The Lean
embedding is total, mirroring that the Python function raises on no input:
every subscript it takes is guarded by a key/length test.) -/
theorem malformed_response_fails_soft (kvs : List (String × JVal))
    (h : hasPageShape kvs = false) :
    find_pagination_and_data_list kvs
      = (JVal.arr [], JVal.obj [("hasNextPage", JVal.bool false)]) := by
  induction kvs using find_pagination_and_data_list.induct with
  | case1 kvs hc =>
      unfold hasPageShape at h
      simp [hc.1, hc.2] at h
  | case2 fst inner hc1 hc2 ih =>
      have hinner : hasPageShape inner = false := by
        cases hps : hasPageShape inner with
        | false => rfl
        | true =>
            unfold hasPageShape at h
            simp [hps] at h
      unfold find_pagination_and_data_list
      rw [dif_neg hc2]
      exact ih hinner
  | case3 kvs hc1 hc2 hns =>
      unfold find_pagination_and_data_list
      rw [dif_neg hc2]
      clear hc1 h
      revert hc2 hns
      match kvs with
      | [] => intro _ _; rfl
      | [(k, JVal.obj inner)] =>
          intro hc2 hns
          exact (hns k inner hc2 rfl HEq.rfl).elim
      | [(k, JVal.str s)] => intro _ _; rfl
      | [(k, JVal.num n)] => intro _ _; rfl
      | [(k, JVal.bool b)] => intro _ _; rfl
      | [(k, JVal.null)] => intro _ _; rfl
      | [(k, JVal.arr a)] => intro _ _; rfl
      | (k1, JVal.str s) :: q :: rest => intro _ _; rfl
      | (k1, JVal.num n) :: q :: rest => intro _ _; rfl
      | (k1, JVal.bool b) :: q :: rest => intro _ _; rfl
      | (k1, JVal.null) :: q :: rest => intro _ _; rfl
      | (k1, JVal.arr a) :: q :: rest => intro _ _; rfl
      | (k1, JVal.obj o) :: q :: rest => intro _ _; rfl

/-- C5 witness: the malformed response of the spec's own example,
`{"key": "value"}`, extracts to `([], {hasNextPage: false})`. -/
theorem malformed_response_fails_soft_witness :
    find_pagination_and_data_list [("key", JVal.str "value")]
      = (JVal.arr [], JVal.obj [("hasNextPage", JVal.bool false)]) :=
  malformed_response_fails_soft [("key", JVal.str "value")]
    (by unfold hasPageShape; simp [jlookup])

/-! ### C4: pagination concatenates pages in order, one call per page -/

theorem paginateGo_spec (rest : List Page) :
    ∀ (info : PageInfo) (acc : List String) (calls : List (Option String)),
      chainFrom info rest = true →
      paginateGo acc calls info rest
        = some (acc ++ (rest.map Page.nodes).flatten, calls ++ cursorsOf info rest) := by
  induction rest with
  | nil =>
      intro info acc calls h
      simp only [chainFrom] at h
      simp only [paginateGo, cursorsOf]
      simp at h
      simp [h]
  | cons p rest2 ih =>
      intro info acc calls h
      simp only [chainFrom, Bool.and_eq_true] at h
      simp only [paginateGo, cursorsOf]
      rw [if_pos h.1, ih p.pageInfo (acc ++ p.nodes) (calls ++ [some info.endCursor]) h.2]
      simp

theorem cursorsOf_eq_dropLast (rest : List Page) :
    ∀ hd : Page,
      cursorsOf hd.pageInfo rest
        = (hd :: rest).dropLast.map (fun q => some q.pageInfo.endCursor) := by
  induction rest with
  | nil => intro hd; simp [cursorsOf]
  | cons p rest2 ih =>
      intro hd
      simp only [cursorsOf]
      rw [List.dropLast_cons₂, List.map_cons, ih p]

/-- C4: for a paginated query whose underlying responses form a sequence of N
pages, each holding at most 100 nodes and with `hasNextPage = false` exactly
on the last page, `fetch_graphql_paginated` returns the concatenation of all
pages' node lists in page order, and its call trace has exactly N entries —
the first with no cursor (`first: 100`) and each subsequent one passing
`after` equal to the previous page's `endCursor`. -/
theorem paginate_concatenates_pages (pages : List Page) (p : Page) (rest : List Page)
    (hp : pages = p :: rest)
    (hnodes : ∀ q ∈ pages, q.nodes.length ≤ 100)
    (hwf : pagesWellFormed pages = true) :
    fetch_graphql_paginated pages
      = some ((pages.map Page.nodes).flatten,
          none :: pages.dropLast.map (fun q => some q.pageInfo.endCursor)) ∧
    (none :: pages.dropLast.map (fun q => some q.pageInfo.endCursor)).length
      = pages.length := by
  subst hp
  simp only [pagesWellFormed] at hwf
  constructor
  · simp only [fetch_graphql_paginated]
    rw [paginateGo_spec rest p.pageInfo p.nodes [none] hwf,
      cursorsOf_eq_dropLast rest p]
    simp
  · simp only [List.length_cons, List.length_map, List.length_dropLast]
    omega

/-- C4 witness: a two-page sequence (2 nodes then 1 node) paginates to the
three nodes in order with two calls, the second passing the first page's
cursor. -/
theorem paginate_concatenates_pages_witness :
    fetch_graphql_paginated [samplePage1, samplePage2]
      = some ((([samplePage1, samplePage2]).map Page.nodes).flatten,
          none :: ([samplePage1, samplePage2]).dropLast.map
            (fun q => some q.pageInfo.endCursor)) ∧
    (none :: ([samplePage1, samplePage2]).dropLast.map
        (fun q => some q.pageInfo.endCursor)).length
      = ([samplePage1, samplePage2]).length :=
  paginate_concatenates_pages [samplePage1, samplePage2] samplePage1 [samplePage2]
    rfl (by decide) (by decide)

/-! ### C8: merging yearly fragments is a commutative, associative sum -/

theorem mergeYearly_comm (a b : Bucket) : mergeYearly a b = mergeYearly b a := by
  funext y q l
  simp only [mergeYearly]
  cases ha : a y q l <;> cases hb : b y q l <;> simp <;> omega

theorem mergeYearly_assoc (a b c : Bucket) :
    mergeYearly (mergeYearly a b) c = mergeYearly a (mergeYearly b c) := by
  funext y q l
  simp only [mergeYearly]
  cases ha : a y q l <;> cases hb : b y q l <;> cases hc : c y q l <;> simp <;> omega

/-- C8: merging per-repository `YearlyBucket` fragments is commutative and
associative (a pointwise sum over `(year, quarter, language)` keys), and
therefore the final bucket is the same for every non-overlapping partition of
the fragment set into a "fetch" part and a "reuse" part — each part folded in
its own order, reuse merged after fetch as the orchestrator does — over the
same underlying data. -/
theorem mergeYearly_partition_invariant :
    (∀ a b : Bucket, mergeYearly a b = mergeYearly b a) ∧
    (∀ a b c : Bucket,
      mergeYearly (mergeYearly a b) c = mergeYearly a (mergeYearly b c)) ∧
    (∀ frags fetch1 reuse1 fetch2 reuse2 : List Bucket,
      (fetch1 ++ reuse1).Perm frags → (fetch2 ++ reuse2).Perm frags →
      List.foldl mergeYearly (List.foldl mergeYearly emptyBucket fetch1) reuse1
        = List.foldl mergeYearly (List.foldl mergeYearly emptyBucket fetch2) reuse2) := by
  refine ⟨mergeYearly_comm, mergeYearly_assoc, ?_⟩
  intro frags fetch1 reuse1 fetch2 reuse2 h1 h2
  have hcomm : ∀ (l : List Bucket), ∀ x ∈ l, ∀ y ∈ l, ∀ z : Bucket,
      mergeYearly (mergeYearly z x) y = mergeYearly (mergeYearly z y) x := by
    intro l x _ y _ z
    rw [mergeYearly_assoc, mergeYearly_comm x y, mergeYearly_assoc]
  rw [← List.foldl_append, ← List.foldl_append]
  rw [h1.foldl_eq' (hcomm _) emptyBucket, h2.foldl_eq' (hcomm _) emptyBucket]

/-- C8 witness: two one-cell fragments merged under the two opposite
fetch/reuse partitions of the same fragment set give the same bucket. -/
theorem mergeYearly_partition_invariant_witness :
    List.foldl mergeYearly
        (List.foldl mergeYearly emptyBucket [cellBucket 2023 2 "Python" 150 60])
        [cellBucket 2024 1 "Rust" 10 5]
      = List.foldl mergeYearly
          (List.foldl mergeYearly emptyBucket [cellBucket 2024 1 "Rust" 10 5])
          [cellBucket 2023 2 "Python" 150 60] :=
  mergeYearly_partition_invariant.2.2
    [cellBucket 2023 2 "Python" 150 60, cellBucket 2024 1 "Rust" 10 5]
    [cellBucket 2023 2 "Python" 150 60] [cellBucket 2024 1 "Rust" 10 5]
    [cellBucket 2024 1 "Rust" 10 5] [cellBucket 2023 2 "Python" 150 60]
    (List.Perm.refl _)
    (List.Perm.swap (cellBucket 2023 2 "Python" 150 60) (cellBucket 2024 1 "Rust" 10 5) [])

/-! ### Lemmas about the fetch phase -/

theorem processOne_res_none_iff (net : Network) (now : Int) (ignored : List String)
    (repo : Repo) (st : SyncState) :
    (processOne net now ignored repo st).2 = none
      ↔ (repo.name ∉ ignored ∧ net repo.name = FetchResult.fatal) := by
  unfold processOne updateDataWithCommitStatsAndCache
  by_cases hig : repo.name ∈ ignored
  · simp [hig]
  · cases hnet : net repo.name with
    | fatal => simp [hig, hnet]
    | ok bs =>
        cases bs with
        | nil => by_cases hm : repo.name ∈ st.processed <;> simp [hig, hnet, hm]
        | cons b bs2 => by_cases hm : repo.name ∈ st.processed <;> simp [hig, hnet, hm]

theorem processOne_trace_mem (net : Network) (now : Int) (ignored : List String)
    (repo : Repo) (st : SyncState) :
    ∀ e ∈ (processOne net now ignored repo st).1,
      e = Ev.fetchBranchList repo.name ∨ e = Ev.warnNoBranches repo.name ∨
      e = Ev.writeCacheRecord repo.name ∨ e = Ev.writeCacheIndexFile ∨
      e = Ev.writeCheckpointFile (st.processed ++ [repo.name]) := by
  intro e he
  unfold processOne updateDataWithCommitStatsAndCache at he
  by_cases hig : repo.name ∈ ignored
  · simp [hig] at he
  · cases hnet : net repo.name with
    | fatal =>
        simp [hig, hnet] at he
        simp [he]
    | ok bs =>
        cases bs with
        | nil =>
            by_cases hm : repo.name ∈ st.processed <;> simp [hig, hnet, hm] at he <;> tauto
        | cons b bs2 =>
            by_cases hm : repo.name ∈ st.processed <;> simp [hig, hnet, hm] at he <;> tauto

theorem processOne_fatal_trace (net : Network) (now : Int) (ignored : List String)
    (repo : Repo) (st : SyncState)
    (hni : repo.name ∉ ignored) (hf : net repo.name = FetchResult.fatal) :
    (processOne net now ignored repo st).1 = [Ev.fetchBranchList repo.name] := by
  unfold processOne updateDataWithCommitStatsAndCache
  simp [hni, hf]

theorem processOne_ignored_eq (net : Network) (now : Int) (ignored : List String)
    (repo : Repo) (st : SyncState) (hig : repo.name ∈ ignored) :
    processOne net now ignored repo st = ([], some st) := by
  unfold processOne
  simp [hig]

theorem processOne_processed (net : Network) (now : Int) (ignored : List String)
    (repo : Repo) (st st2 : SyncState)
    (h : (processOne net now ignored repo st).2 = some st2) :
    st2.processed = st.processed ∨ st2.processed = st.processed ++ [repo.name] := by
  unfold processOne updateDataWithCommitStatsAndCache at h
  by_cases hig : repo.name ∈ ignored
  · simp [hig] at h
    subst h
    exact Or.inl rfl
  · cases hnet : net repo.name with
    | fatal => simp [hig, hnet] at h
    | ok bs =>
        cases bs with
        | nil =>
            by_cases hm : repo.name ∈ st.processed <;> simp [hig, hnet, hm] at h <;>
              rw [← h] <;> simp
        | cons b bs2 =>
            by_cases hm : repo.name ∈ st.processed <;> simp [hig, hnet, hm] at h <;>
              rw [← h] <;> simp

theorem processOne_has_fetch (net : Network) (now : Int) (ignored : List String)
    (repo : Repo) (st : SyncState) (hni : repo.name ∉ ignored) :
    Ev.fetchBranchList repo.name ∈ (processOne net now ignored repo st).1 := by
  unfold processOne updateDataWithCommitStatsAndCache
  cases hnet : net repo.name with
  | fatal => simp [hni, hnet]
  | ok bs =>
      cases bs with
      | nil => by_cases hm : repo.name ∈ st.processed <;> simp [hni, hnet, hm]
      | cons b bs2 => by_cases hm : repo.name ∈ st.processed <;> simp [hni, hnet, hm]

theorem processOne_has_record (net : Network) (now : Int) (ignored : List String)
    (repo : Repo) (st : SyncState) (hni : repo.name ∉ ignored)
    (b : Branch) (bs : List Branch) (hnet : net repo.name = FetchResult.ok (b :: bs)) :
    Ev.writeCacheRecord repo.name ∈ (processOne net now ignored repo st).1 := by
  unfold processOne updateDataWithCommitStatsAndCache
  by_cases hm : repo.name ∈ st.processed <;> simp [hni, hnet, hm]

theorem fetchPR_step_none (net : Network) (now : Int) (ignored : List String)
    (a : Repo) (rest : List Repo) (st : SyncState) (tr : List Ev)
    (hpr : processOne net now ignored a st = (tr, none)) :
    fetchAndProcessRepos net now ignored (a :: rest) st = (tr, none) := by
  rw [fetchAndProcessRepos, hpr]

theorem fetchPR_step_some (net : Network) (now : Int) (ignored : List String)
    (a : Repo) (rest : List Repo) (st st2 : SyncState) (tr tr2 : List Ev)
    (res2 : Option SyncState)
    (hpr : processOne net now ignored a st = (tr, some st2))
    (hrec : fetchAndProcessRepos net now ignored rest st2 = (tr2, res2)) :
    fetchAndProcessRepos net now ignored (a :: rest) st = (tr ++ tr2, res2) := by
  rw [fetchAndProcessRepos, hpr]
  show (match fetchAndProcessRepos net now ignored rest st2 with
    | (tr2, res) => (tr ++ tr2, res)) = (tr ++ tr2, res2)
  rw [hrec]

theorem processOne_processed_not_mem (net : Network) (now : Int) (ignored : List String)
    (repo : Repo) (st st2 : SyncState) (x : String)
    (hst : x ∉ st.processed)
    (hax : repo.name = x → net repo.name = FetchResult.fatal)
    (h : (processOne net now ignored repo st).2 = some st2) :
    x ∉ st2.processed := by
  by_cases hnx : repo.name = x
  · by_cases hig : repo.name ∈ ignored
    · rw [processOne_ignored_eq net now ignored repo st hig] at h
      simp only [Option.some.injEq] at h
      rw [← h]
      exact hst
    · have hnone : (processOne net now ignored repo st).2 = none :=
        (processOne_res_none_iff net now ignored repo st).2 ⟨hig, hax hnx⟩
      rw [hnone] at h
      cases h
  · rcases processOne_processed net now ignored repo st st2 h with h2 | h2
    · rw [h2]
      exact hst
    · rw [h2]
      simp only [List.mem_append, List.mem_singleton]
      rintro (hx | hx)
      · exact hst hx
      · exact hnx hx.symm

theorem fetchPR_trace_mem (net : Network) (now : Int) (ignored : List String) :
    ∀ (repos : List Repo) (st : SyncState),
      ∀ e ∈ (fetchAndProcessRepos net now ignored repos st).1,
        (∃ n, e = Ev.fetchBranchList n) ∨ (∃ n, e = Ev.warnNoBranches n) ∨
        (∃ n, e = Ev.writeCacheRecord n) ∨ e = Ev.writeCacheIndexFile ∨
        (∃ p, e = Ev.writeCheckpointFile p) := by
  intro repos
  induction repos with
  | nil =>
      intro st e he
      simp [fetchAndProcessRepos] at he
  | cons a rest ih =>
      intro st e he
      have hhead : e ∈ (processOne net now ignored a st).1 →
          (∃ n, e = Ev.fetchBranchList n) ∨ (∃ n, e = Ev.warnNoBranches n) ∨
          (∃ n, e = Ev.writeCacheRecord n) ∨ e = Ev.writeCacheIndexFile ∨
          (∃ p, e = Ev.writeCheckpointFile p) := by
        intro hq
        rcases processOne_trace_mem net now ignored a st e hq with h | h | h | h | h
        · exact Or.inl ⟨_, h⟩
        · exact Or.inr (Or.inl ⟨_, h⟩)
        · exact Or.inr (Or.inr (Or.inl ⟨_, h⟩))
        · exact Or.inr (Or.inr (Or.inr (Or.inl h)))
        · exact Or.inr (Or.inr (Or.inr (Or.inr ⟨_, h⟩)))
      rcases hpr : processOne net now ignored a st with ⟨tr, res⟩
      cases res with
      | none =>
          rw [fetchPR_step_none net now ignored a rest st tr hpr] at he
          exact hhead (by rw [hpr]; exact he)
      | some st2 =>
          rcases hrec : fetchAndProcessRepos net now ignored rest st2 with ⟨tr2, res2⟩
          rw [fetchPR_step_some net now ignored a rest st st2 tr tr2 res2 hpr hrec] at he
          rcases List.mem_append.mp he with he | he
          · exact hhead (by rw [hpr]; exact he)
          · exact ih st2 e (by rw [hrec]; exact he)

theorem fetchPR_ckpt_not_mem (net : Network) (now : Int) (ignored : List String)
    (x : String) :
    ∀ (repos : List Repo) (st : SyncState),
      x ∉ st.processed →
      (∀ a ∈ repos, a.name = x → net a.name = FetchResult.fatal) →
      ∀ p, Ev.writeCheckpointFile p ∈ (fetchAndProcessRepos net now ignored repos st).1 →
        x ∉ p := by
  intro repos
  induction repos with
  | nil =>
      intro st _ _ p hp
      simp [fetchAndProcessRepos] at hp
  | cons a rest ih =>
      intro st hst hfx p hp
      have hmem_head : ∀ q, Ev.writeCheckpointFile q ∈ (processOne net now ignored a st).1 →
          x ∉ q := by
        intro q hq
        by_cases hax : a.name = x
        · by_cases hig : a.name ∈ ignored
          · rw [processOne_ignored_eq net now ignored a st hig] at hq
            simp at hq
          · rw [processOne_fatal_trace net now ignored a st hig
              (hfx a (by simp) hax)] at hq
            simp at hq
        · rcases processOne_trace_mem net now ignored a st _ hq with h | h | h | h | h
          · simp at h
          · simp at h
          · simp at h
          · simp at h
          · simp only [Ev.writeCheckpointFile.injEq] at h
            subst h
            simp only [List.mem_append, List.mem_singleton]
            rintro (hx | hx)
            · exact hst hx
            · exact hax hx.symm
      rcases hpr : processOne net now ignored a st with ⟨tr, res⟩
      cases res with
      | none =>
          rw [fetchPR_step_none net now ignored a rest st tr hpr] at hp
          exact hmem_head p (by rw [hpr]; exact hp)
      | some st2 =>
          rcases hrec : fetchAndProcessRepos net now ignored rest st2 with ⟨tr2, res2⟩
          rw [fetchPR_step_some net now ignored a rest st st2 tr tr2 res2 hpr hrec] at hp
          rcases List.mem_append.mp hp with hp | hp
          · exact hmem_head p (by rw [hpr]; exact hp)
          · have hst2 : x ∉ st2.processed :=
              processOne_processed_not_mem net now ignored a st st2 x hst
                (fun hax => hfx a (by simp) hax) (by rw [hpr])
            exact ih st2 hst2 (fun b hb => hfx b (List.mem_cons_of_mem _ hb)) p
              (by rw [hrec]; exact hp)

theorem fetchPR_no_record (net : Network) (now : Int) (ignored : List String)
    (x : String) :
    ∀ (repos : List Repo) (st : SyncState),
      (∀ a ∈ repos, a.name = x → net a.name = FetchResult.fatal) →
      Ev.writeCacheRecord x ∉ (fetchAndProcessRepos net now ignored repos st).1 := by
  intro repos
  induction repos with
  | nil =>
      intro st _ hp
      simp [fetchAndProcessRepos] at hp
  | cons a rest ih =>
      intro st hfx hp
      have hhead : Ev.writeCacheRecord x ∉ (processOne net now ignored a st).1 := by
        intro hq
        by_cases hax : a.name = x
        · by_cases hig : a.name ∈ ignored
          · rw [processOne_ignored_eq net now ignored a st hig] at hq
            simp at hq
          · rw [processOne_fatal_trace net now ignored a st hig
              (hfx a (by simp) hax)] at hq
            simp at hq
        · rcases processOne_trace_mem net now ignored a st _ hq with h | h | h | h | h
          · simp at h
          · simp at h
          · simp only [Ev.writeCacheRecord.injEq] at h
            exact hax h.symm
          · simp at h
          · simp at h
      rcases hpr : processOne net now ignored a st with ⟨tr, res⟩
      cases res with
      | none =>
          rw [fetchPR_step_none net now ignored a rest st tr hpr] at hp
          exact hhead (by rw [hpr]; exact hp)
      | some st2 =>
          rcases hrec : fetchAndProcessRepos net now ignored rest st2 with ⟨tr2, res2⟩
          rw [fetchPR_step_some net now ignored a rest st st2 tr tr2 res2 hpr hrec] at hp
          rcases List.mem_append.mp hp with hp | hp
          · exact hhead (by rw [hpr]; exact hp)
          · exact ih st2 (fun b hb => hfx b (List.mem_cons_of_mem _ hb))
              (by rw [hrec]; exact hp)

theorem fetchPR_none_of_fatal (net : Network) (now : Int) (ignored : List String)
    (r : Repo) (hni : r.name ∉ ignored) (hf : net r.name = FetchResult.fatal) :
    ∀ (repos : List Repo) (st : SyncState), r ∈ repos →
      (fetchAndProcessRepos net now ignored repos st).2 = none := by
  intro repos
  induction repos with
  | nil =>
      intro st hr
      cases hr
  | cons a rest ih =>
      intro st hr
      rcases hpr : processOne net now ignored a st with ⟨tr, res⟩
      cases res with
      | none =>
          rw [fetchPR_step_none net now ignored a rest st tr hpr]
      | some st2 =>
          rcases hrec : fetchAndProcessRepos net now ignored rest st2 with ⟨tr2, res2⟩
          rw [fetchPR_step_some net now ignored a rest st st2 tr tr2 res2 hpr hrec]
          have hmem : r ∈ rest := by
            rcases List.mem_cons.mp hr with rfl | hmem
            · have hnone : (processOne net now ignored r st).2 = none :=
                (processOne_res_none_iff net now ignored r st).2 ⟨hni, hf⟩
              rw [hpr] at hnone
              cases hnone
            · exact hmem
          have hres := ih st2 hmem
          rw [hrec] at hres
          exact hres

theorem fetchPR_some (net : Network) (now : Int) (ignored : List String) :
    ∀ (repos : List Repo) (st : SyncState),
      (∀ a ∈ repos, net a.name ≠ FetchResult.fatal) →
      (fetchAndProcessRepos net now ignored repos st).2.isSome = true := by
  intro repos
  induction repos with
  | nil =>
      intro st _
      simp [fetchAndProcessRepos]
  | cons a rest ih =>
      intro st hnf
      rcases hpr : processOne net now ignored a st with ⟨tr, res⟩
      cases res with
      | none =>
          have := (processOne_res_none_iff net now ignored a st).1 (by rw [hpr])
          exact absurd this.2 (hnf a (by simp))
      | some st2 =>
          rcases hrec : fetchAndProcessRepos net now ignored rest st2 with ⟨tr2, res2⟩
          rw [fetchPR_step_some net now ignored a rest st st2 tr tr2 res2 hpr hrec]
          have hres := ih st2 (fun b hb => hnf b (List.mem_cons_of_mem _ hb))
          rw [hrec] at hres
          exact hres

theorem fetchPR_has_fetch (net : Network) (now : Int) (ignored : List String)
    (r : Repo) (hni : r.name ∉ ignored) :
    ∀ (repos : List Repo) (st : SyncState), r ∈ repos →
      (∀ a ∈ repos, net a.name ≠ FetchResult.fatal) →
      Ev.fetchBranchList r.name ∈ (fetchAndProcessRepos net now ignored repos st).1 := by
  intro repos
  induction repos with
  | nil =>
      intro st hr
      cases hr
  | cons a rest ih =>
      intro st hr hnf
      rcases hpr : processOne net now ignored a st with ⟨tr, res⟩
      cases res with
      | none =>
          have := (processOne_res_none_iff net now ignored a st).1 (by rw [hpr])
          exact absurd this.2 (hnf a (by simp))
      | some st2 =>
          rcases hrec : fetchAndProcessRepos net now ignored rest st2 with ⟨tr2, res2⟩
          rw [fetchPR_step_some net now ignored a rest st st2 tr tr2 res2 hpr hrec]
          refine List.mem_append.mpr ?_
          rcases List.mem_cons.mp hr with rfl | hmem
          · left
            have := processOne_has_fetch net now ignored r st hni
            rw [hpr] at this
            exact this
          · right
            have := ih st2 hmem (fun b hb => hnf b (List.mem_cons_of_mem _ hb))
            rw [hrec] at this
            exact this

theorem fetchPR_has_record (net : Network) (now : Int) (ignored : List String)
    (r : Repo) (hni : r.name ∉ ignored) (b : Branch) (bs : List Branch)
    (hnet : net r.name = FetchResult.ok (b :: bs)) :
    ∀ (repos : List Repo) (st : SyncState), r ∈ repos →
      (∀ a ∈ repos, net a.name ≠ FetchResult.fatal) →
      Ev.writeCacheRecord r.name ∈ (fetchAndProcessRepos net now ignored repos st).1 := by
  intro repos
  induction repos with
  | nil =>
      intro st hr
      cases hr
  | cons a rest ih =>
      intro st hr hnf
      rcases hpr : processOne net now ignored a st with ⟨tr, res⟩
      cases res with
      | none =>
          have := (processOne_res_none_iff net now ignored a st).1 (by rw [hpr])
          exact absurd this.2 (hnf a (by simp))
      | some st2 =>
          rcases hrec : fetchAndProcessRepos net now ignored rest st2 with ⟨tr2, res2⟩
          rw [fetchPR_step_some net now ignored a rest st st2 tr tr2 res2 hpr hrec]
          refine List.mem_append.mpr ?_
          rcases List.mem_cons.mp hr with rfl | hmem
          · left
            have := processOne_has_record net now ignored r st hni b bs hnet
            rw [hpr] at this
            exact this
          · right
            have := ih st2 hmem (fun c hc => hnf c (List.mem_cons_of_mem _ hc))
            rw [hrec] at this
            exact this

theorem mem_partition_fetch (ignored processed : List String)
    (index : List (String × Stamp)) (cutoff : Int) (repos : List Repo) (r : Repo)
    (hr : r ∈ repos) (hni : r.name ∉ ignored)
    (hc : classifyRepo processed index cutoff r.name = RepoClass.fetch) :
    r ∈ (partitionRepos ignored processed index cutoff repos).1 := by
  induction repos with
  | nil => cases hr
  | cons a rest ih =>
      rcases hfl : partitionRepos ignored processed index cutoff rest with ⟨f, l⟩
      have hstep : partitionRepos ignored processed index cutoff (a :: rest)
          = if a.name ∈ ignored then (f, l)
            else match classifyRepo processed index cutoff a.name with
                 | RepoClass.fetch => (a :: f, l)
                 | RepoClass.reuse => (f, a :: l) := by
        unfold partitionRepos
        rw [hfl]
      rcases List.mem_cons.mp hr with rfl | hmem
      · rw [hstep, if_neg hni, hc]
        exact List.mem_cons_self _ _
      · have hrec := ih hmem
        rw [hfl] at hrec
        rw [hstep]
        by_cases hig : a.name ∈ ignored
        · rw [if_pos hig]
          exact hrec
        · rw [if_neg hig]
          cases hcl : classifyRepo processed index cutoff a.name
          · exact List.mem_cons_of_mem _ hrec
          · exact hrec

theorem partition_fst_mem (ignored processed : List String)
    (index : List (String × Stamp)) (cutoff : Int) (repos : List Repo) :
    ∀ r ∈ (partitionRepos ignored processed index cutoff repos).1, r ∈ repos := by
  induction repos with
  | nil =>
      intro r hr
      simp [partitionRepos] at hr
  | cons a rest ih =>
      intro r hr
      rcases hfl : partitionRepos ignored processed index cutoff rest with ⟨f, l⟩
      have hstep : partitionRepos ignored processed index cutoff (a :: rest)
          = if a.name ∈ ignored then (f, l)
            else match classifyRepo processed index cutoff a.name with
                 | RepoClass.fetch => (a :: f, l)
                 | RepoClass.reuse => (f, a :: l) := by
        unfold partitionRepos
        rw [hfl]
      rw [hstep] at hr
      have hsub : ∀ x, x ∈ f → x ∈ a :: rest := by
        intro x hx
        refine List.mem_cons_of_mem _ (ih x ?_)
        rw [hfl]
        exact hx
      by_cases hig : a.name ∈ ignored
      · rw [if_pos hig] at hr
        exact hsub r hr
      · rw [if_neg hig] at hr
        cases hcl : classifyRepo processed index cutoff a.name <;> rw [hcl] at hr
        · rcases List.mem_cons.mp hr with rfl | hr2
          · exact List.mem_cons_self _ _
          · exact hsub r hr2
        · exact hsub r hr

theorem calc_noCache_eq (net : Network) (now : Int) (ttlDays : Nat)
    (ignored : List String) (fs : FS) (repos : List Repo)
    (tr : List Ev) (res : Option SyncState)
    (h : fetchAndProcessRepos net now ignored repos
      { yearly := emptyBucket, dateData := [], cacheIndex := [], processed := [] }
      = (tr, res)) :
    calculate_commit_data net now { useCache := false, ttlDays := ttlDays, ignored := ignored }
        fs repos
      = (tr, match res with
             | none => none
             | some st1 => some (st1.yearly, st1.dateData)) := by
  simp only [calculate_commit_data, h]
  cases res <;> rfl

theorem calc_cache_none_eq (net : Network) (now : Int) (ttlDays : Nat)
    (ignored : List String) (fs : FS) (repos : List Repo)
    (toFetch toLoad : List Repo) (tr : List Ev)
    (hpart : partitionRepos ignored fs.checkpointProcessed fs.cacheIndex
        (now - ttlDays * 86400) repos = (toFetch, toLoad))
    (hfp : fetchAndProcessRepos net now ignored toFetch
        { yearly := emptyBucket, dateData := [], cacheIndex := fs.cacheIndex,
          processed := fs.checkpointProcessed } = (tr, none)) :
    calculate_commit_data net now { useCache := true, ttlDays := ttlDays, ignored := ignored }
        fs repos
      = (Ev.readCacheIndexFile :: Ev.readCheckpointFile :: tr, none) := by
  simp only [calculate_commit_data, hpart, hfp]
  rfl

/-! ### C7: USE_CACHE = false -/

/-- C7 counterexample: with `USE_CACHE = false`, a run over one repository
with one branch still writes that repository's cache record, a checkpoint
entry naming it, and the cache index file — refuting the claim that no cache
records, cache index entries, or checkpoint entries are written during such a
run (`update_data_with_commit_stats_and_cache` saves unconditionally and
`process_one` checkpoints unconditionally; only the reads are skipped). -/
theorem no_cache_still_writes_counterexample :
    Ev.writeCacheRecord "alpha"
      ∈ (calculate_commit_data okNet 0 noCacheCfg emptyFS [sampleRepoA]).1 ∧
    Ev.writeCheckpointFile ["alpha"]
      ∈ (calculate_commit_data okNet 0 noCacheCfg emptyFS [sampleRepoA]).1 ∧
    Ev.writeCacheIndexFile
      ∈ (calculate_commit_data okNet 0 noCacheCfg emptyFS [sampleRepoA]).1 := by
  refine ⟨?_, ?_, ?_⟩ <;> decide

/-- C7 (amended): when `USE_CACHE` is false the classification and cache/
checkpoint reads are skipped and a full re-fetch is forced — the run reads no
cache index, checkpoint or cache record and never clears the checkpoint, and
every non-ignored repository is fetched from the network — but cache records,
cache index entries and checkpoint entries are still written as each
successfully fetched repository completes. -/
theorem no_cache_forces_full_refetch_with_writes (net : Network) (now : Int)
    (ttlDays : Nat) (ignored : List String) (fs : FS) (repos : List Repo)
    (hnf : ∀ a ∈ repos, net a.name ≠ FetchResult.fatal) :
    (calculate_commit_data net now
        { useCache := false, ttlDays := ttlDays, ignored := ignored } fs repos).2.isSome
      = true ∧
    (∀ e ∈ (calculate_commit_data net now
        { useCache := false, ttlDays := ttlDays, ignored := ignored } fs repos).1,
      e ≠ Ev.readCacheIndexFile ∧ e ≠ Ev.readCheckpointFile ∧
      (∀ n, e ≠ Ev.readCacheRecord n) ∧ e ≠ Ev.clearCheckpointFile) ∧
    (∀ r ∈ repos, r.name ∉ ignored →
      Ev.fetchBranchList r.name ∈ (calculate_commit_data net now
        { useCache := false, ttlDays := ttlDays, ignored := ignored } fs repos).1) ∧
    (∀ r ∈ repos, r.name ∉ ignored → ∀ b bs, net r.name = FetchResult.ok (b :: bs) →
      Ev.writeCacheRecord r.name ∈ (calculate_commit_data net now
        { useCache := false, ttlDays := ttlDays, ignored := ignored } fs repos).1) := by
  rcases h : fetchAndProcessRepos net now ignored repos
      { yearly := emptyBucket, dateData := [], cacheIndex := [], processed := [] }
    with ⟨tr, res⟩
  have hc := calc_noCache_eq net now ttlDays ignored fs repos tr res h
  rw [hc]
  have hsome := fetchPR_some net now ignored repos
    { yearly := emptyBucket, dateData := [], cacheIndex := [], processed := [] } hnf
  rw [h] at hsome
  refine ⟨?_, ?_, ?_, ?_⟩
  · cases res with
    | none => simp at hsome
    | some st1 => rfl
  · intro e he
    have hshape := fetchPR_trace_mem net now ignored repos
      { yearly := emptyBucket, dateData := [], cacheIndex := [], processed := [] } e
      (by rw [h]; exact he)
    rcases hshape with ⟨n, rfl⟩ | ⟨n, rfl⟩ | ⟨n, rfl⟩ | rfl | ⟨p, rfl⟩ <;>
      exact ⟨by simp, by simp, fun n2 => by simp, by simp⟩
  · intro r hr hni
    have hm := fetchPR_has_fetch net now ignored r hni repos
      { yearly := emptyBucket, dateData := [], cacheIndex := [], processed := [] } hr hnf
    rw [h] at hm
    exact hm
  · intro r hr hni b bs hnet
    have hm := fetchPR_has_record net now ignored r hni b bs hnet repos
      { yearly := emptyBucket, dateData := [], cacheIndex := [], processed := [] } hr hnf
    rw [h] at hm
    exact hm

/-- C7 witness: the amended theorem applied to a one-repository run with
caching off. -/
theorem no_cache_forces_full_refetch_with_writes_witness :
    Ev.fetchBranchList sampleRepoA.name ∈ (calculate_commit_data okNet 0
      { useCache := false, ttlDays := 7, ignored := [] } emptyFS [sampleRepoA]).1 :=
  (no_cache_forces_full_refetch_with_writes okNet 0 7 [] emptyFS [sampleRepoA]
    (by decide)).2.2.1 sampleRepoA (List.mem_singleton.mpr rfl) (by decide)

/-! ### C1: a fatal fetch error and the fate of the run -/

/-- C1 counterexample: with caching on and empty prior state, a run over
`alpha` (whose fetch succeeds) and `beta` (whose fetch fails fatally) returns
no aggregate at all — the exception re-raises out of `gather` and out of
`calculate_commit_data` — although `alpha` alone produces an aggregate.  This
refutes the claim that a run hitting a fatal error on some repository still
returns a partial aggregate covering the repositories that succeeded. -/
theorem fatal_error_partial_aggregate_counterexample :
    (calculate_commit_data sampleNet 0 cacheCfg emptyFS
        [sampleRepoA, sampleRepoB]).2 = none ∧
    (calculate_commit_data sampleNet 0 cacheCfg emptyFS [sampleRepoA]).2.isSome
      = true :=
  ⟨rfl, rfl⟩

/-- C1 (amended): if a fatal error occurs while fetching a repository that was
classified for fetching, that repository is neither cached nor checkpointed
(no cache-record write for it, and no checkpoint write contains its name, so
it will be retried on the next run), and the checkpoint is not cleared — but
the error propagates out of the sync (`gather` re-raises), so the run raises
instead of returning a partial aggregate. -/
theorem fatal_error_aborts_sync (net : Network) (now : Int) (ttlDays : Nat)
    (ignored : List String) (fs : FS) (repos : List Repo) (r : Repo)
    (hr : r ∈ repos) (hni : r.name ∉ ignored)
    (hckpt : r.name ∉ fs.checkpointProcessed)
    (hclass : classifyRepo fs.checkpointProcessed fs.cacheIndex
        (now - ttlDays * 86400) r.name = RepoClass.fetch)
    (hfatal : net r.name = FetchResult.fatal)
    (hnames : ∀ x ∈ repos, x.name = r.name → x = r) :
    (calculate_commit_data net now
        { useCache := true, ttlDays := ttlDays, ignored := ignored } fs repos).2
      = none ∧
    Ev.writeCacheRecord r.name ∉ (calculate_commit_data net now
        { useCache := true, ttlDays := ttlDays, ignored := ignored } fs repos).1 ∧
    (∀ p, Ev.writeCheckpointFile p ∈ (calculate_commit_data net now
        { useCache := true, ttlDays := ttlDays, ignored := ignored } fs repos).1 →
      r.name ∉ p) ∧
    Ev.clearCheckpointFile ∉ (calculate_commit_data net now
        { useCache := true, ttlDays := ttlDays, ignored := ignored } fs repos).1 := by
  rcases hpart : partitionRepos ignored fs.checkpointProcessed fs.cacheIndex
      (now - ttlDays * 86400) repos with ⟨toFetch, toLoad⟩
  have hrf : r ∈ toFetch := by
    have hm := mem_partition_fetch ignored fs.checkpointProcessed fs.cacheIndex
      (now - ttlDays * 86400) repos r hr hni hclass
    rw [hpart] at hm
    exact hm
  rcases hfp : fetchAndProcessRepos net now ignored toFetch
      { yearly := emptyBucket, dateData := [], cacheIndex := fs.cacheIndex,
        processed := fs.checkpointProcessed } with ⟨tr, res⟩
  have hnone : res = none := by
    have hn := fetchPR_none_of_fatal net now ignored r hni hfatal toFetch
      { yearly := emptyBucket, dateData := [], cacheIndex := fs.cacheIndex,
        processed := fs.checkpointProcessed } hrf
    rw [hfp] at hn
    exact hn
  subst hnone
  have hc := calc_cache_none_eq net now ttlDays ignored fs repos toFetch toLoad tr
    hpart hfp
  rw [hc]
  have hfx : ∀ a ∈ toFetch, a.name = r.name → net a.name = FetchResult.fatal := by
    intro a ha hax
    have hamem : a ∈ repos := partition_fst_mem ignored fs.checkpointProcessed
      fs.cacheIndex (now - ttlDays * 86400) repos a (by rw [hpart]; exact ha)
    have heq : a = r := hnames a hamem hax
    subst heq
    exact hfatal
  refine ⟨rfl, ?_, ?_, ?_⟩
  · intro hmem
    simp only [List.mem_cons] at hmem
    rcases hmem with h1 | h1 | h1
    · exact Ev.noConfusion h1
    · exact Ev.noConfusion h1
    · have hnr := fetchPR_no_record net now ignored r.name toFetch
        { yearly := emptyBucket, dateData := [], cacheIndex := fs.cacheIndex,
          processed := fs.checkpointProcessed } hfx
      rw [hfp] at hnr
      exact hnr h1
  · intro p hp
    simp only [List.mem_cons] at hp
    rcases hp with h1 | h1 | h1
    · exact Ev.noConfusion h1
    · exact Ev.noConfusion h1
    · exact fetchPR_ckpt_not_mem net now ignored r.name toFetch
        { yearly := emptyBucket, dateData := [], cacheIndex := fs.cacheIndex,
          processed := fs.checkpointProcessed } hckpt hfx p (by rw [hfp]; exact h1)
  · intro hmem
    simp only [List.mem_cons] at hmem
    rcases hmem with h1 | h1 | h1
    · exact Ev.noConfusion h1
    · exact Ev.noConfusion h1
    · have hshape := fetchPR_trace_mem net now ignored toFetch
        { yearly := emptyBucket, dateData := [], cacheIndex := fs.cacheIndex,
          processed := fs.checkpointProcessed } Ev.clearCheckpointFile
        (by rw [hfp]; exact h1)
      rcases hshape with ⟨n, h2⟩ | ⟨n, h2⟩ | ⟨n, h2⟩ | h2 | ⟨q, h2⟩ <;>
        exact Ev.noConfusion h2

/-- C1 witness: the amended theorem applied to the two-repository run in which
`beta` fails fatally. -/
theorem fatal_error_aborts_sync_witness :
    (calculate_commit_data sampleNet 0
        { useCache := true, ttlDays := 7, ignored := [] } emptyFS
        [sampleRepoA, sampleRepoB]).2 = none :=
  (fatal_error_aborts_sync sampleNet 0 7 [] emptyFS [sampleRepoA, sampleRepoB]
    sampleRepoB (by decide) (by decide) (by decide) (by decide) (by decide)
    (by decide)).1

/-! ### C10: an empty branch list is checkpointed but never cached -/

/-- C10: a repository whose branch list comes back empty is warned about and
causes no cache-record or cache-index write, yet `process_one` still appends
its name to the checkpoint (first conjunct: the whole trace is the fetch, the
warning and the checkpoint write, and the in-memory state changes only in
`processed`); consequently a later run whose checkpoint lists the repository
classifies it `reuse` (second conjunct) and, finding no cache record, leaves
both aggregates untouched (third conjunct), so the repository silently
contributes nothing to either output. -/
theorem empty_branch_list_checkpointed_without_cache (net : Network) (now : Int)
    (ignored : List String) (repo : Repo) (st : SyncState)
    (hnb : net repo.name = FetchResult.ok [])
    (hni : repo.name ∉ ignored)
    (hnp : repo.name ∉ st.processed) :
    processOne net now ignored repo st
      = ([Ev.fetchBranchList repo.name, Ev.warnNoBranches repo.name,
          Ev.writeCheckpointFile (st.processed ++ [repo.name])],
         some { yearly := st.yearly, dateData := st.dateData,
                cacheIndex := st.cacheIndex,
                processed := st.processed ++ [repo.name] }) ∧
    (∀ (fs2 : FS) (cutoff : Int), repo.name ∈ fs2.checkpointProcessed →
      classifyRepo fs2.checkpointProcessed fs2.cacheIndex cutoff repo.name
        = RepoClass.reuse) ∧
    (∀ (records : String → Option CacheRecord) (yearly : Bucket) (dateData : Obj),
      records repo.name = none →
      loadCachedRepoData records repo yearly dateData
        = ([Ev.readCacheRecord repo.name], yearly, dateData)) := by
  refine ⟨?_, ?_, ?_⟩
  · unfold processOne updateDataWithCommitStatsAndCache
    simp [hni, hnb, hnp]
  · intro fs2 cutoff hmem
    unfold classifyRepo
    refine if_pos ⟨?_, hmem⟩
    intro hnil
    rw [hnil] at hmem
    cases hmem
  · intro records yearly dateData hrec
    unfold loadCachedRepoData
    rw [hrec]

/-- C10 witness: the theorem applied to a concrete repository whose branch
list is empty, starting from the empty state. -/
theorem empty_branch_list_checkpointed_without_cache_witness :
    processOne emptyBranchNet 0 [] sampleRepoA startState
      = ([Ev.fetchBranchList sampleRepoA.name, Ev.warnNoBranches sampleRepoA.name,
          Ev.writeCheckpointFile (startState.processed ++ [sampleRepoA.name])],
         some { yearly := startState.yearly, dateData := startState.dateData,
                cacheIndex := startState.cacheIndex,
                processed := startState.processed ++ [sampleRepoA.name] }) :=
  (empty_branch_list_checkpointed_without_cache emptyBranchNet 0 [] sampleRepoA
    startState rfl (by decide) (by decide)).1

/-- C2 (amended): the wait policy the code actually implements.  A
timezone-naive `resetAt` timestamp takes priority over the message pattern and
the 60-second fallback and is waited out as `max(secs, 1)`, but the retry loop
then sleeps an additional `min(wait * 1, 300)` backoff before the retry, so
the total delay for a naive `resetAt` T seconds ahead is `max(T,1) +
min(max(T,1), 300)` — about 2T, never under 35 s for T = 30.  A
timezone-aware (`Z`/offset-suffixed) `resetAt` falls through to the message
pattern / 60-second fallback because the aware-minus-naive subtraction raises
a silently-caught `TypeError`, exactly as an absent field does. -/
theorem rate_limit_wait_behavior (secs : Int) (msg : Option Nat) :
    wait_for_rate_limit_reset
        { resetAt := some (ResetAtField.parsed false secs), tryAgainSecs := msg }
      = (max secs 1).toNat ∧
    rateLimitRetryDelay
        { resetAt := some (ResetAtField.parsed false secs), tryAgainSecs := msg }
      = (max secs 1).toNat + min ((max secs 1).toNat * 1) 300 ∧
    wait_for_rate_limit_reset
        { resetAt := some (ResetAtField.parsed true secs), tryAgainSecs := msg }
      = rlFallbackWait { resetAt := some (ResetAtField.parsed true secs), tryAgainSecs := msg } ∧
    wait_for_rate_limit_reset { resetAt := none, tryAgainSecs := msg }
      = rlFallbackWait { resetAt := none, tryAgainSecs := msg } :=
  ⟨rfl, rfl, rfl, rfl⟩
